import Mathlib

/-!
Verification of the reki undo/redo stack (src/index.ts).

This file shallowly embeds the data model and the four transitions of the
history engine: createStack, execute, undo, redo, clear. TypeScript arrays
become Lists (push at the tail, pop at the tail, shift from the front),
the optional numeric option maxStackSize becomes an Option Nat, and the
zero-argument callbacks of a Command become pure functions Unit → T. A
second, exception-aware model (CommandE, StateE, executeE, undoE, redoE)
renders the same code with callbacks that may throw, and additionally
tracks the value of the input state object when control leaves the
function, because the source mutates the input's arrays in place with
Array.prototype.pop.
-/

namespace Reki

/-- Command from src/index.ts: an optional name and two zero-argument
callbacks, the forward action (field execute) and the inverse (field
undo), modelled as pure functions. -/
structure Command (T : Type) where
  name : Option String
  undo : Unit → T
  execute : Unit → T

/-- Resolved Options held in a state: maxStackSize is a number or
undefined. -/
structure Options where
  maxStackSize : Option Nat

/-- State from src/index.ts: the current value, the resolved options, and
the two command stacks (most recent at the tail). -/
structure State (T : Type) where
  current : T
  options : Options
  undos : List (Command T)
  redos : List (Command T)

/-- Caller-side options object passed to createStack. The outer Option
records whether the maxStackSize key is present at all, the inner one its
value (none = undefined). The distinction matters because the object
spread in createStack lets a present key override the default even when
its value is undefined. -/
structure OptionsArg where
  maxStackSize : Option (Option Nat)

/-- Merge performed by createStack, the spread of the caller's object over
the default: maxStackSize defaults to 10 only when the key is absent. -/
def mergeOptions (options : OptionsArg) : Options :=
  match options.maxStackSize with
  | none => { maxStackSize := some 10 }
  | some v => { maxStackSize := v }

/-- createStack from src/index.ts. -/
def createStack {T : Type} (initial : T) (options : OptionsArg) : State T :=
  { options := mergeOptions options
    current := initial
    undos := []
    redos := [] }

/-- Guard of the eviction branch shared by the three transitions, the
JavaScript truthiness test
`state.options.maxStackSize && stack.length > state.options.maxStackSize`:
an undefined maxStackSize and a maxStackSize of 0 are both falsy, so
neither ever evicts. -/
def evictCond (o : Options) (len : Nat) : Bool :=
  match o.maxStackSize with
  | none => false
  | some m => decide (m ≠ 0) && decide (m < len)

/-- Push-site eviction: when the guard holds, stack.shift() removes the
first (oldest) element of the freshly built array. -/
def pushEvict {T : Type} (o : Options) (stack : List (Command T)) :
    List (Command T) :=
  if evictCond o stack.length then stack.drop 1 else stack

/-- execute from src/index.ts: run the forward callback, append the
command to a copy of undos with the eviction rule, reset redos. -/
def execute {T : Type} (state : State T) (command : Command T) : State T :=
  let current := command.execute ()
  let stack := pushEvict state.options (state.undos ++ [command])
  { state with current := current, undos := stack, redos := [] }

/-- undo from src/index.ts, as a function from the input state to the
returned state. The source pops state.undos in place and then returns a
new object whose undos field is the popped (shortened) array; the
returned value therefore has undos = dropLast of the input's undos. -/
def undo {T : Type} (state : State T) : State T :=
  if state.undos.length = 0 then state
  else
    match state.undos.getLast? with
    | none => state
    | some command =>
      let current := command.undo ()
      let stack := pushEvict state.options (state.redos ++ [command])
      { state with
        current := current
        undos := state.undos.dropLast
        redos := stack }

/-- redo from src/index.ts: pop the tail of redos, re-run the forward
callback, append the command to a copy of undos with the eviction rule. -/
def redo {T : Type} (state : State T) : State T :=
  if state.redos.length = 0 then state
  else
    match state.redos.getLast? with
    | none => state
    | some command =>
      let current := command.execute ()
      let stack := pushEvict state.options (state.undos ++ [command])
      { state with
        current := current
        undos := stack
        redos := state.redos.dropLast }

/-- clear from src/index.ts: same current and options, empty stacks. -/
def clear {T : Type} (state : State T) : State T :=
  { current := state.current
    options := state.options
    undos := []
    redos := [] }

/-- Value of the input state object after undo returns. The source calls
state.undos.pop(), and Array.prototype.pop removes the last element of
the receiver in place, so a caller who kept a reference to the input
state sees its undos array shortened by one whenever the stack was
non-empty. The other fields of the input object are never written. -/
def undoInputAfter {T : Type} (state : State T) : State T :=
  if state.undos.length = 0 then state
  else { state with undos := state.undos.dropLast }

/-- Value of the input state object after redo returns: redo pops
state.redos in place, mirroring undo. -/
def redoInputAfter {T : Type} (state : State T) : State T :=
  if state.redos.length = 0 then state
  else { state with redos := state.redos.dropLast }

/-- Value of the input state object after execute returns: execute only
reads its input (the spread and the array literal copy), so the input is
unchanged. -/
def executeInputAfter {T : Type} (state : State T) (_command : Command T) :
    State T :=
  state

/-- Value of the input state object after clear returns: clear only reads
its input. -/
def clearInputAfter {T : Type} (state : State T) : State T :=
  state

/-- Value of the input command object after any transition: the source
never writes to a command's fields. -/
def commandAfter {T : Type} (command : Command T) : Command T :=
  command

end Reki

namespace Reki

/-- Command whose callbacks may throw: an Except.error models an uncaught
JavaScript exception raised by the caller-supplied callback. -/
structure CommandE (E T : Type) where
  name : Option String
  undo : Unit → Except E T
  execute : Unit → Except E T

/-- State over throwing commands. -/
structure StateE (E T : Type) where
  current : T
  options : Options
  undos : List (CommandE E T)
  redos : List (CommandE E T)

/-- Eviction at the push site, over throwing commands. -/
def pushEvictE {E T : Type} (o : Options) (stack : List (CommandE E T)) :
    List (CommandE E T) :=
  if evictCond o stack.length then stack.drop 1 else stack

/-- Exception-aware execute. The first component is the outcome (the
returned state, or the propagated exception); the second is the value of
the input state object when control leaves the function. execute reads
its input but never writes it, so that second component is always the
input itself. -/
def executeE {E T : Type} (state : StateE E T) (command : CommandE E T) :
    Except E (StateE E T) × StateE E T :=
  match command.execute () with
  | Except.error e => (Except.error e, state)
  | Except.ok current =>
    let stack := pushEvictE state.options (state.undos ++ [command])
    (Except.ok { state with current := current, undos := stack, redos := [] },
      state)

/-- Exception-aware undo. The pop of state.undos happens before the
inverse callback runs, so when the callback throws, the input state has
already lost the last element of its undos array. -/
def undoE {E T : Type} (state : StateE E T) :
    Except E (StateE E T) × StateE E T :=
  if state.undos.length = 0 then (Except.ok state, state)
  else
    match state.undos.getLast? with
    | none => (Except.ok state, state)
    | some command =>
      let popped : StateE E T := { state with undos := state.undos.dropLast }
      match command.undo () with
      | Except.error e => (Except.error e, popped)
      | Except.ok current =>
        let stack := pushEvictE popped.options (popped.redos ++ [command])
        (Except.ok { popped with current := current, redos := stack }, popped)

/-- Exception-aware redo: pops state.redos in place before re-running the
forward callback. -/
def redoE {E T : Type} (state : StateE E T) :
    Except E (StateE E T) × StateE E T :=
  if state.redos.length = 0 then (Except.ok state, state)
  else
    match state.redos.getLast? with
    | none => (Except.ok state, state)
    | some command =>
      let popped : StateE E T := { state with redos := state.redos.dropLast }
      match command.execute () with
      | Except.error e => (Except.error e, popped)
      | Except.ok current =>
        let stack := pushEvictE popped.options (popped.undos ++ [command])
        (Except.ok { popped with current := current, undos := stack }, popped)

/-- States reachable from createStack through the four transitions, with
arbitrary commands. -/
inductive Reachable {T : Type} : State T → Prop where
  | created (initial : T) (options : OptionsArg) :
      Reachable (createStack initial options)
  | exec {s : State T} (command : Command T) :
      Reachable s → Reachable (execute s command)
  | undone {s : State T} : Reachable s → Reachable (undo s)
  | redone {s : State T} : Reachable s → Reachable (redo s)
  | cleared {s : State T} : Reachable s → Reachable (clear s)

/-- Spec-side rendering of execute, after the amendment forced by the
truthiness of the guard: append the operation, then, when maxStackSize is
set to a positive value and the appended length exceeds it, remove
exactly one element from the front; the redo stack is reset to empty.
With maxStackSize unset or 0 nothing is ever removed. -/
def executeSpec {T : Type} (s : State T) (op : Command T) : State T :=
  let appended := s.undos ++ [op]
  let trimmed :=
    match s.options.maxStackSize with
    | some m => if 0 < m ∧ m < appended.length then appended.drop 1 else appended
    | none => appended
  { current := op.execute ()
    options := s.options
    undos := trimmed
    redos := [] }

/-- Concrete command over Nat: forward gives 1, inverse gives 0. -/
def cmdA : Command Nat := ⟨some "a", fun _ => 0, fun _ => 1⟩

/-- Concrete command over Nat: forward gives 2, inverse gives 1. -/
def cmdB : Command Nat := ⟨some "b", fun _ => 1, fun _ => 2⟩

/-- Concrete state holding one undoable command. -/
def sPop : State Nat := ⟨0, ⟨some 10⟩, [cmdA], []⟩

/-- Concrete throwing command: its inverse callback throws. -/
def cmdBoom : CommandE String Nat :=
  ⟨some "boom", fun _ => Except.error "boom", fun _ => Except.ok 1⟩

/-- Concrete state whose only undoable command throws on undo. -/
def sBoom : StateE String Nat := ⟨0, ⟨some 10⟩, [cmdBoom], []⟩

/-- Concrete state configured with maxStackSize 0. -/
def sZeroA : State Nat := ⟨5, ⟨some 0⟩, [], []⟩

/-- Concrete state configured with maxStackSize 0 and one command. -/
def sZeroB : State Nat := ⟨5, ⟨some 0⟩, [cmdA], []⟩

/-- Concrete state whose undos stack already ends with cmdA. -/
def sDup : State Nat := ⟨0, ⟨some 10⟩, [cmdA], []⟩

/-- Concrete command whose forward callback gives 7 and inverse gives 3. -/
def cmdSeven : Command Nat := ⟨some "seven", fun _ => 3, fun _ => 7⟩

/-- Concrete state whose current (5) was not produced by the forward
callback of the command on top of its undos stack (which gives 7). -/
def sSeven : State Nat := ⟨5, ⟨some 10⟩, [cmdSeven], []⟩

/-- Concrete coherent state: current equals the forward callback's value
of the command on top of its undos stack. -/
def sSevenOK : State Nat := ⟨7, ⟨some 10⟩, [cmdSeven], []⟩

/-- Concrete state with both stacks empty. -/
def sEmpty : State Nat := ⟨3, ⟨some 10⟩, [], []⟩

/-- Concrete command whose inverse callback returns 3, the current value
of sEmpty. -/
def cmdThree : Command Nat := ⟨some "three", fun _ => 3, fun _ => 4⟩

/-- Concrete exception-model state with an empty undos stack and a
throwing command sitting on the redos stack. -/
def sEmptyE : StateE String Nat :=
  ⟨3, ⟨some 10⟩, [], [⟨some "kaboom", fun _ => Except.error "kaboom",
    fun _ => Except.error "kaboom"⟩]⟩

/-- Concrete state with an unset maxStackSize. -/
def sNone : State Nat := ⟨0, ⟨none⟩, [cmdA], []⟩

end Reki

namespace Reki

/-! Helper lemmas: projections of the transitions and properties of the
eviction guard. -/

@[simp] theorem execute_current {T : Type} (s : State T) (c : Command T) :
    (execute s c).current = c.execute () := rfl

@[simp] theorem execute_options {T : Type} (s : State T) (c : Command T) :
    (execute s c).options = s.options := rfl

@[simp] theorem execute_undos {T : Type} (s : State T) (c : Command T) :
    (execute s c).undos = pushEvict s.options (s.undos ++ [c]) := rfl

@[simp] theorem execute_redos {T : Type} (s : State T) (c : Command T) :
    (execute s c).redos = [] := rfl

@[simp] theorem clear_options {T : Type} (s : State T) :
    (clear s).options = s.options := rfl

@[simp] theorem clear_undos {T : Type} (s : State T) :
    (clear s).undos = [] := rfl

@[simp] theorem clear_redos {T : Type} (s : State T) :
    (clear s).redos = [] := rfl

theorem undo_of_empty {T : Type} (s : State T) (h : s.undos = []) :
    undo s = s := by
  simp [undo, h]

theorem redo_of_empty {T : Type} (s : State T) (h : s.redos = []) :
    redo s = s := by
  simp [redo, h]

theorem undo_of_getLast {T : Type} (s : State T) (cmd : Command T)
    (h : s.undos.getLast? = some cmd) :
    undo s = { s with
      current := cmd.undo ()
      undos := s.undos.dropLast
      redos := pushEvict s.options (s.redos ++ [cmd]) } := by
  have hne : s.undos ≠ [] := by
    intro h0
    rw [h0] at h
    exact Option.noConfusion h
  have hlen : s.undos.length ≠ 0 := by
    simpa [List.length_eq_zero] using hne
  unfold undo
  rw [if_neg hlen, h]

theorem redo_of_getLast {T : Type} (s : State T) (cmd : Command T)
    (h : s.redos.getLast? = some cmd) :
    redo s = { s with
      current := cmd.execute ()
      undos := pushEvict s.options (s.undos ++ [cmd])
      redos := s.redos.dropLast } := by
  have hne : s.redos ≠ [] := by
    intro h0
    rw [h0] at h
    exact Option.noConfusion h
  have hlen : s.redos.length ≠ 0 := by
    simpa [List.length_eq_zero] using hne
  unfold redo
  rw [if_neg hlen, h]

theorem undo_options {T : Type} (s : State T) : (undo s).options = s.options := by
  rcases h : s.undos.getLast? with _ | cmd
  · rw [undo_of_empty s (by simpa using h)]
  · rw [undo_of_getLast s cmd h]

theorem redo_options {T : Type} (s : State T) : (redo s).options = s.options := by
  rcases h : s.redos.getLast? with _ | cmd
  · rw [redo_of_empty s (by simpa using h)]
  · rw [redo_of_getLast s cmd h]

theorem evictCond_of_none {o : Options} (h : o.maxStackSize = none)
    (len : Nat) : evictCond o len = false := by
  rcases o with ⟨mss⟩
  cases h
  rfl

theorem evictCond_of_zero {o : Options} (h : o.maxStackSize = some 0)
    (len : Nat) : evictCond o len = false := by
  rcases o with ⟨mss⟩
  cases h
  simp [evictCond]

theorem evictCond_of_le {o : Options} {m len : Nat}
    (hm : o.maxStackSize = some m) (h : len ≤ m) :
    evictCond o len = false := by
  rcases o with ⟨mss⟩
  cases hm
  simp only [evictCond, Bool.and_eq_false_iff, decide_eq_false_iff_not]
  omega

theorem le_of_evictCond_false {o : Options} {m len : Nat}
    (hm : o.maxStackSize = some m) (hpos : 0 < m)
    (h : evictCond o len = false) : len ≤ m := by
  rcases o with ⟨mss⟩
  cases hm
  simp only [evictCond, Bool.and_eq_false_iff, decide_eq_false_iff_not] at h
  omega

theorem evictCond_one {o : Options} : evictCond o 1 = false := by
  rcases o with ⟨mss⟩
  rcases mss with _ | m
  · rfl
  · simp only [evictCond, Bool.and_eq_false_iff, decide_eq_false_iff_not]
    omega

theorem pushEvict_of_false {T : Type} {o : Options} {stack : List (Command T)}
    (h : evictCond o stack.length = false) : pushEvict o stack = stack := by
  simp [pushEvict, h]

theorem length_pushEvict {T : Type} (o : Options) (stack : List (Command T)) :
    (pushEvict o stack).length =
      if evictCond o stack.length then stack.length - 1 else stack.length := by
  unfold pushEvict
  split <;> simp

theorem getLast?_pushEvict_concat {T : Type} (o : Options)
    (xs : List (Command T)) (a : Command T) :
    (pushEvict o (xs ++ [a])).getLast? = some a := by
  unfold pushEvict
  split
  · rcases xs with _ | ⟨b, rest⟩
    · rename_i hev
      rw [List.nil_append, List.length_singleton] at hev
      rw [evictCond_one] at hev
      exact Bool.noConfusion hev
    · simp [List.getLast?_concat]
  · exact List.getLast?_concat _

theorem length_le_pushEvict_concat {T : Type} (o : Options)
    (xs : List (Command T)) (a : Command T) :
    xs.length ≤ (pushEvict o (xs ++ [a])).length := by
  rw [length_pushEvict]
  split <;> simp

theorem getLast?_dropLast_pushEvict_concat_ne {T : Type} (o : Options)
    (xs : List (Command T)) (a op : Command T) (h : xs.getLast? ≠ some op) :
    ((pushEvict o (xs ++ [a])).dropLast).getLast? ≠ some op := by
  unfold pushEvict
  split
  · rcases xs with _ | ⟨b, rest⟩
    · rename_i hev
      rw [List.nil_append, List.length_singleton] at hev
      rw [evictCond_one] at hev
      exact Bool.noConfusion hev
    · rw [List.cons_append, List.drop_one, List.tail_cons,
        List.dropLast_concat]
      rcases rest with _ | ⟨c, rest2⟩
      · simp
      · rw [List.getLast?_cons_cons] at h
        exact h
  · rw [List.dropLast_concat]
    exact h

/-- Inductive invariant: on any reachable state with a positive
maxStackSize, the two stacks together never hold more than maxStackSize
commands. -/
theorem reachable_sum_le {T : Type} {s : State T} (hs : Reachable s) :
    ∀ m, s.options.maxStackSize = some m → 0 < m →
      s.undos.length + s.redos.length ≤ m := by
  induction hs with
  | created initial options =>
    intro m _ hpos
    simp [createStack]
  | exec c hr ih =>
    intro m hm hpos
    rename_i s
    rw [execute_options] at hm
    have hsum := ih m hm hpos
    simp only [execute_undos, execute_redos, List.length_nil, Nat.add_zero]
    rw [length_pushEvict]
    split
    · simp only [List.length_append, List.length_singleton]
      omega
    · rename_i hev
      have hev2 : evictCond s.options (s.undos ++ [c]).length = false := by
        simpa using hev
      have := le_of_evictCond_false hm hpos hev2
      omega
  | undone hr ih =>
    intro m hm hpos
    rename_i s
    rw [undo_options] at hm
    have hsum := ih m hm hpos
    rcases h : s.undos.getLast? with _ | cmd
    · rw [undo_of_empty s (by simpa using h)]
      exact hsum
    · have hne : s.undos ≠ [] := by
        intro h0
        rw [h0] at h
        exact Option.noConfusion h
      rw [undo_of_getLast s cmd h]
      simp only [List.length_dropLast]
      rw [length_pushEvict]
      have hult : 0 < s.undos.length := List.length_pos.mpr hne
      have hredos : s.redos.length + 1 ≤ m := by omega
      rw [List.length_append, List.length_singleton]
      rw [evictCond_of_le hm hredos]
      simp only [Bool.false_eq_true, if_false]
      omega
  | redone hr ih =>
    intro m hm hpos
    rename_i s
    rw [redo_options] at hm
    have hsum := ih m hm hpos
    rcases h : s.redos.getLast? with _ | cmd
    · rw [redo_of_empty s (by simpa using h)]
      exact hsum
    · have hne : s.redos ≠ [] := by
        intro h0
        rw [h0] at h
        exact Option.noConfusion h
      rw [redo_of_getLast s cmd h]
      simp only [List.length_dropLast]
      rw [length_pushEvict]
      have hrlt : 0 < s.redos.length := List.length_pos.mpr hne
      have hundos : s.undos.length + 1 ≤ m := by omega
      rw [List.length_append, List.length_singleton]
      rw [evictCond_of_le hm hundos]
      simp only [Bool.false_eq_true, if_false]
      omega
  | cleared hr ih =>
    intro m _ _
    simp only [clear_undos, clear_redos, List.length_nil]
    omega

/-- With an unset maxStackSize, folding execute over a list of commands
grows undos by exactly the number of commands. -/
theorem foldl_execute_length {T : Type} (cs : List (Command T)) :
    ∀ s : State T, s.options.maxStackSize = none →
      (List.foldl execute s cs).undos.length = s.undos.length + cs.length := by
  induction cs with
  | nil =>
    intro s _
    simp
  | cons c rest ih =>
    intro s h
    rw [List.foldl_cons, ih (execute s c) h]
    simp only [execute_undos]
    rw [pushEvict_of_false (evictCond_of_none h _)]
    simp only [List.length_append, List.length_singleton, List.length_cons,
      List.length_nil]
    omega

/-! Claim theorems. -/

/-- C1: the claim says every transition leaves its input state unchanged.
The code violates it: undo calls state.undos.pop(), which removes the
last element of the input state's undos array in place. Evaluated at the
concrete failing input sPop (one command on the undo stack), the input
state's undos array is empty after the call, so the input object after
the call differs from the input before it. -/
theorem undo_pop_mutates_input :
    (undoInputAfter sPop).undos.length = 0 ∧ sPop.undos.length = 1 ∧
    undoInputAfter sPop ≠ sPop := by
  refine ⟨rfl, rfl, fun h => ?_⟩
  have h2 := congrArg (fun t => t.undos.length) h
  exact absurd h2 (by decide)

/-- C2: the claim says that when a callback throws, no state has been
mutated at the point of the failure, including the input state. The code
violates it for undo (and redo): the pop of the input's stack happens
before the callback runs. At the concrete failing input sBoom, whose only
undoable command throws from its inverse callback, the exception
propagates (first component) but the input state has already lost the
last element of its undos array (second component). -/
theorem undoE_throw_input_already_popped :
    (undoE sBoom).1 = Except.error "boom" ∧
    (undoE sBoom).2.undos.length = 0 ∧ sBoom.undos.length = 1 ∧
    (undoE sBoom).2 ≠ sBoom := by
  refine ⟨rfl, rfl, rfl, fun h => ?_⟩
  have h2 := congrArg (fun t => t.undos.length) h
  exact absurd h2 (by decide)

/-- C3 counterexample: the claim says that with maxStackSize 0 every push
is immediately evicted and the stacks stay empty. In the code the guard
treats 0 as falsy, so nothing is ever evicted: one execute on a fresh
stack created with maxStackSize 0 leaves a command on the undo stack. -/
theorem maxDepth_zero_stack_nonempty :
    (execute (createStack 0 ⟨some (some 0)⟩) cmdA).options.maxStackSize
      = some 0 ∧
    (execute (createStack 0 ⟨some (some 0)⟩) cmdA).undos.length ≠ 0 :=
  ⟨rfl, by decide⟩

/-- C3 (amended): with maxStackSize 0 the eviction guard is falsy, so no
push ever evicts: execute appends to undos and resets redos, undo moves
the popped command onto redos, and redo moves it back, all without
eviction; the stacks behave exactly as if maxStackSize were unset. -/
theorem maxDepth_zero_no_eviction {T : Type} (s : State T)
    (c cmd : Command T) (h : s.options.maxStackSize = some 0) :
    (execute s c).undos = s.undos ++ [c] ∧ (execute s c).redos = [] ∧
    (s.undos.getLast? = some cmd →
      (undo s).undos = s.undos.dropLast ∧ (undo s).redos = s.redos ++ [cmd]) ∧
    (s.redos.getLast? = some cmd →
      (redo s).redos = s.redos.dropLast ∧ (redo s).undos = s.undos ++ [cmd]) := by
  refine ⟨?_, rfl, fun hl => ?_, fun hl => ?_⟩
  · rw [execute_undos, pushEvict_of_false (evictCond_of_zero h _)]
  · rw [undo_of_getLast s cmd hl]
    exact ⟨rfl, pushEvict_of_false (evictCond_of_zero h _)⟩
  · rw [redo_of_getLast s cmd hl]
    exact ⟨rfl, pushEvict_of_false (evictCond_of_zero h _)⟩

/-- C3 witness: the amended theorem applied at the concrete state sZeroB,
created with maxStackSize 0 and holding one command. -/
theorem maxDepth_zero_no_eviction_witness :
    (execute sZeroB cmdB).undos = sZeroB.undos ++ [cmdB] ∧
    (undo sZeroB).redos = sZeroB.redos ++ [cmdA] := by
  have h := maxDepth_zero_no_eviction sZeroB cmdB cmdA rfl
  exact ⟨h.1, (h.2.2.1 rfl).2⟩

/-- C4 counterexample: the claim asserts the bounds whenever maxStackSize
is set. Setting maxStackSize to 0 makes the guard falsy, so eviction is
disabled and a reachable state violates undos.length <= maxStackSize. -/
theorem bound_violated_at_zero :
    Reachable (execute (createStack (0 : Nat) ⟨some (some 0)⟩) cmdB) ∧
    (execute (createStack (0 : Nat) ⟨some (some 0)⟩) cmdB).options.maxStackSize
      = some 0 ∧
    ¬ (execute (createStack (0 : Nat) ⟨some (some 0)⟩) cmdB).undos.length ≤ 0 :=
  ⟨Reachable.exec cmdB (Reachable.created 0 ⟨some (some 0)⟩), rfl, by decide⟩

/-- C4 (amended): on every reachable state whose maxStackSize is set to a
positive value, both stacks are bounded by maxStackSize; and when
maxStackSize is unset no eviction happens, so execute always grows the
undo stack by one (the stacks are unbounded). -/
theorem reachable_bounds :
    (∀ (T : Type) (s : State T), Reachable s →
      ∀ m, s.options.maxStackSize = some m → 0 < m →
        s.undos.length ≤ m ∧ s.redos.length ≤ m) ∧
    (∀ (T : Type) (s : State T) (c : Command T),
      s.options.maxStackSize = none →
        (execute s c).undos.length = s.undos.length + 1) := by
  constructor
  · intro T s hs m hm hpos
    have := reachable_sum_le hs m hm hpos
    omega
  · intro T s c h
    rw [execute_undos, pushEvict_of_false (evictCond_of_none h _)]
    simp

/-- C4 witness: the bound at the concrete reachable state obtained by one
execute on a default stack (maxStackSize 10), and the unbounded growth at
the concrete state sNone whose maxStackSize is unset. -/
theorem reachable_bounds_witness :
    (execute (createStack (0 : Nat) ⟨none⟩) cmdA).undos.length ≤ 10 ∧
    (execute sNone cmdB).undos.length = sNone.undos.length + 1 :=
  ⟨(reachable_bounds.1 Nat _ (Reachable.exec cmdA (Reachable.created 0 ⟨none⟩))
      10 rfl (by decide)).1,
    reachable_bounds.2 Nat sNone cmdB rfl⟩

/-- C5 counterexample: the claim asserts that whenever the appended list's
length exceeds maxStackSize, exactly one element is removed from the
front. At the concrete state sZeroA (maxStackSize 0) the appended list
has length 1, which exceeds 0, yet nothing is removed, because the guard
treats 0 as falsy. -/
theorem execute_no_evict_at_zero :
    sZeroA.options.maxStackSize = some 0 ∧
    0 < (sZeroA.undos ++ [cmdA]).length ∧
    (execute sZeroA cmdA).undos ≠ (sZeroA.undos ++ [cmdA]).drop 1 := by
  refine ⟨rfl, by decide, fun h => ?_⟩
  have h2 := congrArg (fun l => l.length) h
  exact absurd h2 (by decide)

/-- C5 (amended): execute returns a state whose current is the forward
callback's value, whose redos is empty, and whose undos is the input's
undos with the command appended, with exactly one element removed from
the front when maxStackSize is set to a positive value and the appended
length exceeds it (and nothing removed when maxStackSize is unset or 0).
Stated as a refinement: execute coincides with executeSpec, the
transcription of the amended sentence. -/
theorem execute_refines_spec {T : Type} (s : State T) (op : Command T) :
    execute s op = executeSpec s op := by
  rcases s with ⟨current, ⟨mss⟩, undos, redos⟩
  rcases mss with _ | m
  · simp [execute, executeSpec, pushEvict, evictCond]
  · simp only [execute, executeSpec, pushEvict, evictCond]
    rcases Nat.eq_zero_or_pos m with h0 | hpos
    · subst h0
      simp
    · by_cases hlt : m < (undos ++ [op]).length
      · simp [hpos, hlt, Nat.pos_iff_ne_zero.mp hpos]
      · simp [hpos, hlt, Nat.pos_iff_ne_zero.mp hpos]

/-- C9: on every state reachable from createStack with a positive
maxStackSize, the combined length of the two stacks never exceeds
maxStackSize, and consequently the eviction branch inside undo (guard
evaluated on the redo stack grown by the popped command) and the one
inside redo (guard evaluated on the undo stack grown by the popped
command) are never taken: their guards are false whenever the respective
pop happens. -/
theorem reachable_sum_bound {T : Type} {s : State T} (hs : Reachable s)
    (m : Nat) (hm : s.options.maxStackSize = some m) (hpos : 0 < m) :
    s.undos.length + s.redos.length ≤ m ∧
    (s.undos.length ≠ 0 →
      evictCond s.options (s.redos.length + 1) = false) ∧
    (s.redos.length ≠ 0 →
      evictCond s.options (s.undos.length + 1) = false) := by
  have hsum := reachable_sum_le hs m hm hpos
  refine ⟨hsum, fun hu => ?_, fun hr => ?_⟩
  · exact evictCond_of_le hm (by omega)
  · exact evictCond_of_le hm (by omega)

/-- C9 witness: the invariant at the concrete reachable state obtained by
executing one command on a default stack (maxStackSize 10). -/
theorem reachable_sum_bound_witness :
    (execute (createStack (0 : Nat) ⟨none⟩) cmdA).undos.length +
      (execute (createStack (0 : Nat) ⟨none⟩) cmdA).redos.length ≤ 10 :=
  (reachable_sum_bound
    (Reachable.exec cmdA (Reachable.created 0 ⟨none⟩)) 10 rfl (by decide)).1

/-- C6 counterexample: the claim says that after execute(s, op) followed
by undo, op is no longer the tail of the undo stack. When op is already
the tail of s.undos (the same command object executed twice in a row),
the popped occurrence leaves behind the earlier one: op is still the tail
of undos, even though its inverse callback returns s.current as the claim
requires. -/
theorem roundtrip_tail_duplicate :
    cmdA.undo () = sDup.current ∧
    (undo (execute sDup cmdA)).undos.getLast? = some cmdA := by
  constructor
  · rfl
  · have hlast : (execute sDup cmdA).undos.getLast? = some cmdA := by
      rw [execute_undos]
      exact getLast?_pushEvict_concat _ _ _
    rw [undo_of_getLast _ cmdA hlast]
    rfl

/-- C6 (amended): for every state s and command op whose inverse callback
returns s.current, and such that op is not already the tail of s.undos,
undo(execute(s, op)) has current equal to s.current, op is the tail of
the redo stack, and op is no longer the tail of the undo stack. -/
theorem execute_undo_roundtrip {T : Type} (s : State T) (op : Command T)
    (hinv : op.undo () = s.current) (hne : s.undos.getLast? ≠ some op) :
    (undo (execute s op)).current = s.current ∧
    (undo (execute s op)).redos.getLast? = some op ∧
    (undo (execute s op)).undos.getLast? ≠ some op := by
  have hlast : (execute s op).undos.getLast? = some op := by
    rw [execute_undos]
    exact getLast?_pushEvict_concat _ _ _
  rw [undo_of_getLast _ op hlast]
  refine ⟨hinv, ?_, ?_⟩
  · show (pushEvict (execute s op).options
      ((execute s op).redos ++ [op])).getLast? = some op
    exact getLast?_pushEvict_concat _ _ _
  · show ((pushEvict s.options (s.undos ++ [op])).dropLast).getLast?
      ≠ some op
    exact getLast?_dropLast_pushEvict_concat_ne _ _ _ _ hne

/-- C6 witness: the amended round trip applied at the concrete state
sEmpty (empty undo stack, so the tail hypothesis holds trivially) with
the command cmdThree whose inverse returns sEmpty.current. -/
theorem execute_undo_roundtrip_witness :
    (undo (execute sEmpty cmdThree)).current = sEmpty.current ∧
    (undo (execute sEmpty cmdThree)).redos.getLast? = some cmdThree :=
  ⟨(execute_undo_roundtrip sEmpty cmdThree rfl (by simp [sEmpty])).1,
    (execute_undo_roundtrip sEmpty cmdThree rfl (by simp [sEmpty])).2.1⟩

/-- C7 counterexample: the claim says redo(undo(s)).current equals
s.current for every state whose tail command has a pure forward callback.
At the concrete state sSeven, current is 5 but the tail command's (pure)
forward callback returns 7: redo re-invokes the callback, so the round
trip ends at 7, not 5. -/
theorem redo_reinvokes_not_cached :
    sSeven.undos.getLast? = some cmdSeven ∧
    sSeven.current = 5 ∧
    (redo (undo sSeven)).current = 7 ∧
    (redo (undo sSeven)).current ≠ sSeven.current := by
  refine ⟨rfl, rfl, ?_, ?_⟩
  · rw [undo_of_getLast sSeven cmdSeven rfl]
    rfl
  · rw [undo_of_getLast sSeven cmdSeven rfl]
    decide

/-- C7 (amended): for every state s with a non-empty undos stack whose
tail command cmd has a (pure, deterministic) forward callback that
reproduces s.current, redo(undo(s)) has current equal to s.current and
cmd back on the tail of the undos stack; the undo moved cmd to the tail
of the redos stack, and the redo only shrinks the redos stack (dropping
exactly its tail) and never shrinks the undos stack. -/
theorem undo_redo_roundtrip {T : Type} (s : State T) (cmd : Command T)
    (hlast : s.undos.getLast? = some cmd)
    (hcur : s.current = cmd.execute ()) :
    (redo (undo s)).current = s.current ∧
    (redo (undo s)).undos.getLast? = some cmd ∧
    (undo s).redos.getLast? = some cmd ∧
    (redo (undo s)).redos = (undo s).redos.dropLast ∧
    (undo s).undos.length ≤ (redo (undo s)).undos.length := by
  have hu := undo_of_getLast s cmd hlast
  have hredos : (undo s).redos.getLast? = some cmd := by
    rw [hu]
    exact getLast?_pushEvict_concat _ _ _
  have hr := redo_of_getLast (undo s) cmd hredos
  rw [hr]
  refine ⟨hcur.symm, ?_, hredos, rfl, ?_⟩
  · exact getLast?_pushEvict_concat _ _ _
  · exact length_le_pushEvict_concat _ _ _

/-- C7 witness: the amended round trip applied at the concrete coherent
state sSevenOK, whose current (7) is the value of the tail command's
forward callback. -/
theorem undo_redo_roundtrip_witness :
    (redo (undo sSevenOK)).current = sSevenOK.current ∧
    (redo (undo sSevenOK)).undos.getLast? = some cmdSeven :=
  ⟨(undo_redo_roundtrip sSevenOK cmdSeven rfl rfl).1,
    (undo_redo_roundtrip sSevenOK cmdSeven rfl rfl).2.1⟩

/-- C8: undo on a state with an empty undo stack, and redo on a state
with an empty redo stack, return the input state itself (hence a state
deep-equal to it), and this is not an error. In the exception-aware model
the outcome is Except.ok with the same state, and no callback is invoked:
the result is ok even when every command in the state has throwing
callbacks. -/
theorem noop_on_empty :
    (∀ (T : Type) (s : State T), s.undos = [] → undo s = s) ∧
    (∀ (T : Type) (s : State T), s.redos = [] → redo s = s) ∧
    (∀ (E T : Type) (s : StateE E T), s.undos = [] →
      undoE s = (Except.ok s, s)) ∧
    (∀ (E T : Type) (s : StateE E T), s.redos = [] →
      redoE s = (Except.ok s, s)) := by
  refine ⟨fun T s h => undo_of_empty s h, fun T s h => redo_of_empty s h,
    fun E T s h => ?_, fun E T s h => ?_⟩
  · simp [undoE, h]
  · simp [redoE, h]

/-- C8 witness: the no-ops applied at the concrete states sEmpty (both
stacks empty) and sEmptyE, whose empty undos stack sits next to a redos
stack holding a command that throws from both callbacks. -/
theorem noop_on_empty_witness :
    undo sEmpty = sEmpty ∧ redo sEmpty = sEmpty ∧
    undoE sEmptyE = (Except.ok sEmptyE, sEmptyE) :=
  ⟨noop_on_empty.1 Nat sEmpty rfl, noop_on_empty.2.1 Nat sEmpty rfl,
    noop_on_empty.2.2.1 String Nat sEmptyE rfl⟩

/-- C10: createStack called with an options object that explicitly
contains the maxStackSize key set to undefined produces a state whose
resolved maxStackSize is undefined (the spread lets the explicit
undefined override the default 10), and on any state with an undefined
maxStackSize no transition ever evicts: execute appends to undos, undo
and redo move the popped command without eviction, and folding execute
over any list of commands grows undos to exactly its length, so the
stacks grow without bound. -/
theorem explicit_undefined_unbounded :
    (∀ (T : Type) (init : T),
      (createStack init ⟨some none⟩).options.maxStackSize = none) ∧
    (∀ (T : Type) (s : State T) (c : Command T),
      s.options.maxStackSize = none →
        (execute s c).undos = s.undos ++ [c]) ∧
    (∀ (T : Type) (s : State T) (cmd : Command T),
      s.options.maxStackSize = none → s.undos.getLast? = some cmd →
        (undo s).redos = s.redos ++ [cmd]) ∧
    (∀ (T : Type) (s : State T) (cmd : Command T),
      s.options.maxStackSize = none → s.redos.getLast? = some cmd →
        (redo s).undos = s.undos ++ [cmd]) ∧
    (∀ (T : Type) (init : T) (cs : List (Command T)),
      (List.foldl execute (createStack init ⟨some none⟩) cs).undos.length
        = cs.length) := by
  refine ⟨fun T init => rfl, fun T s c h => ?_, fun T s cmd h hl => ?_,
    fun T s cmd h hl => ?_, fun T init cs => ?_⟩
  · rw [execute_undos, pushEvict_of_false (evictCond_of_none h _)]
  · rw [undo_of_getLast s cmd hl]
    exact pushEvict_of_false (evictCond_of_none h _)
  · rw [redo_of_getLast s cmd hl]
    exact pushEvict_of_false (evictCond_of_none h _)
  · rw [foldl_execute_length cs _ rfl]
    simp [createStack, mergeOptions]

/-- C10 witness: the explicit-undefined creation and the unbounded growth
evaluated at concrete inputs, including one execute on the concrete state
sNone with an unset maxStackSize. -/
theorem explicit_undefined_unbounded_witness :
    (createStack (0 : Nat) ⟨some none⟩).options.maxStackSize = none ∧
    (execute sNone cmdB).undos = sNone.undos ++ [cmdB] ∧
    (List.foldl execute (createStack (0 : Nat) ⟨some none⟩)
      [cmdA, cmdB]).undos.length = 2 :=
  ⟨explicit_undefined_unbounded.1 Nat 0,
    explicit_undefined_unbounded.2.1 Nat sNone cmdB rfl,
    explicit_undefined_unbounded.2.2.2.2 Nat 0 [cmdA, cmdB]⟩

end Reki
